import Mathlib

/-!
Verification development for the bapX core library (getwinharris/bapXvector).

The repository ships developer documentation (README) describing the engine
(library.py) together with the UI layer ui.js.  The engine implementation
file itself is not present in the repository snapshot, so the engine
components below are modelled from the specification text; the UI layer is
embedded directly from src/ui.js.
-/

/-! ### Symbol Map (xCh) -/

/-- Modelled from the spec: the Symbol Map (`xCh` in library.py, which is
missing from the snapshot) is an insertion-ordered table from byte-sequence
keys to integer codes, codes assigned sequentially starting at zero on first
occurrence.  We represent it by the insertion-ordered list of keys; the code
of a key is its index. -/
abbrev SymbolMap : Type := List (List Nat)

/-- Code of a symbol in the map: its index in insertion order, if present. -/
def lookupCode : SymbolMap → List Nat → Option Nat
  | [], _ => none
  | k :: rest, s => if k = s then some 0 else (lookupCode rest s).map (· + 1)

/-- Modelled from the spec: `lookup_or_register(symbol) -> code`.  If the
symbol has been seen before, return its existing code unchanged; otherwise
assign the next sequential code, store the mapping and return it. -/
def lookup_or_register (m : SymbolMap) (s : List Nat) : Nat × SymbolMap :=
  match lookupCode m s with
  | some c => (c, m)
  | none => (m.length, m ++ [s])

/-- Apply a sequence of `lookup_or_register` calls, keeping only the map. -/
def applyCalls (m : SymbolMap) : List (List Nat) → SymbolMap
  | [] => m
  | t :: ts => applyCalls (lookup_or_register m t).2 ts

/-- Register every byte of a payload as a single-byte symbol, left to right
(the per-byte symbol granularity used by the folding function). -/
def registerAll (m : SymbolMap) (bs : List Nat) : SymbolMap :=
  applyCalls m (bs.map (fun b => [b]))

/-- A payload all of whose bytes are already registered in the map. -/
def allRegistered (m : SymbolMap) (bs : List Nat) : Prop :=
  ∀ b ∈ bs, (lookupCode m [b]).isSome

/-! ### Field Descriptor (xAt) and padding -/

/-- Modelled from the spec: the Atomic Float Field `xAt`, the fixed 5-slot
width specification, default `[8, 8, 8, 8, 16]` (bits). -/
def xAt : List Nat := [8, 8, 8, 8, 16]

/-- Modelled from the spec: `block_size_bits()` is the sum of the
descriptor's widths. -/
def block_size_bits (widths : List Nat) : Nat := widths.sum

/-- Block size in bytes: `block_size_bits() / 8`. -/
def blockBytes (widths : List Nat) : Nat := block_size_bits widths / 8

/-- Modelled from the spec: `pad(bytes)` right-pads the input with zero
bytes to the next multiple of `block_size_bits()/8` bytes. -/
def pad (widths : List Nat) (bs : List Nat) : List Nat :=
  let bb := blockBytes widths
  bs ++ List.replicate ((bb - bs.length % bb) % bb) 0

/-! ### Compression constant (x8D) -/

/-- Modelled from the spec: the fixed small epsilon `K`, documented value
`0.00000001`. -/
def Kconst : ℚ := 1 / 100000000

/-- Modelled from the spec: the compression multiplier of `x8D`,
`multiplier(b) = (b * w1 * w2 * w3 * K) / w4` with `w1..w3` the first three
descriptor widths and `w4 = 64` the fixed divisor
(README: `(b * 8 * 8 * 8 * 0.00000001) / 64`). -/
def multiplier (widths : List Nat) (b : Nat) : ℚ :=
  ((b : ℚ) * (widths.getD 0 8 : Nat) * (widths.getD 1 8 : Nat) *
    (widths.getD 2 8 : Nat) * Kconst) / 64

/-! ### Folding function and pipeline -/

/-- Modelled from the spec: fold one byte.  The byte's code is taken from
the Symbol Map (registering the byte as a symbol when new); the spec leaves
the exact combination rule open and suggests
`output_byte = floor(code * multiplier(b)) mod 256`, which we commit to. -/
def foldByte (widths : List Nat) (m : SymbolMap) (b : Nat) : Nat × SymbolMap :=
  let r := lookup_or_register m [b]
  (Int.toNat ⌊(r.1 : ℚ) * multiplier widths b⌋ % 256, r.2)

/-- Fold a byte sequence left to right, threading the Symbol Map. -/
def foldBytes (widths : List Nat) (m : SymbolMap) : List Nat → List Nat × SymbolMap
  | [] => ([], m)
  | b :: rest =>
    let r1 := foldByte widths m b
    let r2 := foldBytes widths r1.2 rest
    (r1.1 :: r2.1, r2.2)

/-- Output byte of the fold for a byte `b` against a fixed map state. -/
def outByte (widths : List Nat) (m : SymbolMap) (b : Nat) : Nat :=
  Int.toNat ⌊(((lookupCode m [b]).getD 0 : Nat) : ℚ) * multiplier widths b⌋ % 256

/-- Modelled from the spec: `xIn` / `normalize_and_register` — pad the
input per the descriptor and register every symbol encountered, returning
the padded (uncompressed) bytes together with the updated map. -/
def xIn (widths : List Nat) (m : SymbolMap) (bs : List Nat) : List Nat × SymbolMap :=
  (pad widths bs, registerAll m (pad widths bs))

/-- Modelled from the spec: `xOut` / `light_output` — resolve bytes against
the Symbol Map to their registered codes where known, leaving unknown bytes
unchanged; no padding, no folding, no registration. -/
def xOut (m : SymbolMap) (bs : List Nat) : List Nat :=
  bs.map (fun b =>
    match lookupCode m [b] with
    | some c => c % 256
    | none => b)

/-- Modelled from the spec: `xCreate` / `create` — compose
`normalize_and_register` then `fold`; the single entry point producing the
durable stored representation. -/
def xCreate (widths : List Nat) (m : SymbolMap) (bs : List Nat) : List Nat × SymbolMap :=
  foldBytes widths (xIn widths m bs).2 (xIn widths m bs).1

/-! ### Error model for the pipeline entry points -/

/-- Modelled from the spec: error kinds reported by the engine. -/
inductive XError where
  | InputKind
  | NotFoundKind
  | CapacityKind
  | IOKind
  deriving DecidableEq

/-- Modelled from the spec: an argument handed to a pipeline entry point is
either a byte sequence or some non-byte value (carried opaquely). -/
inductive XInput where
  | bytes (bs : List Nat)
  | nonbyte (desc : String)
  deriving DecidableEq

/-- Modelled from the spec: checked `xIn`; a non-byte argument fails with
`InputKind` and leaves the Symbol Map unmodified. -/
def xInE (widths : List Nat) (m : SymbolMap) : XInput → Except XError (List Nat) × SymbolMap
  | .bytes bs => (.ok (xIn widths m bs).1, (xIn widths m bs).2)
  | .nonbyte _ => (.error .InputKind, m)

/-- Modelled from the spec: checked `xOut`; a non-byte argument fails with
`InputKind` and leaves the Symbol Map unmodified. -/
def xOutE (m : SymbolMap) : XInput → Except XError (List Nat) × SymbolMap
  | .bytes bs => (.ok (xOut m bs), m)
  | .nonbyte _ => (.error .InputKind, m)

/-- Modelled from the spec: checked `xCreate`; a non-byte argument fails
with `InputKind` and leaves the Symbol Map unmodified. -/
def xCreateE (widths : List Nat) (m : SymbolMap) : XInput → Except XError (List Nat) × SymbolMap
  | .bytes bs => (.ok (xCreate widths m bs).1, (xCreate widths m bs).2)
  | .nonbyte _ => (.error .InputKind, m)

/-! ### Settings table (xSdb): upsert by key -/

/-- A settings row: a byte-sequence key mapped to an ordered sequence of
byte-sequence values. -/
abbrev SettingsStore : Type := List (List Nat × List (List Nat))

/-- Modelled from the spec: `xSdb_update` — if a row with the key exists,
replace its value in place; otherwise append a new row. -/
def xSdb_update : SettingsStore → List Nat → List (List Nat) → SettingsStore
  | [], k, v => [(k, v)]
  | r :: rest, k, v =>
    if r.1 = k then (k, v) :: rest else r :: xSdb_update rest k v

/-- Modelled from the spec: `xSdb_read` returns the rows of the store. -/
def xSdb_read (st : SettingsStore) : SettingsStore := st

/-- Keys of a settings store, in row order. -/
def settingsKeys (st : SettingsStore) : List (List Nat) := st.map Prod.fst

/-- Settings stores reachable from the empty store by a sequence of
updates. -/
def buildSettings (ops : List (List Nat × List (List Nat))) : SettingsStore :=
  ops.foldl (fun st op => xSdb_update st op.1 op.2) []

/-! ### Conversation table (xMdb): append-only -/

/-- An encoded conversation row: timestamp, attachment, purpose words,
sentence (each already passed through `xCreate`). -/
abbrev Rec4 : Type := List Nat × List Nat × List Nat × List Nat

abbrev MdbStore : Type := List Rec4

/-- Encode the four fields of a conversation row independently through
`xCreate`, threading the shared Symbol Map. -/
def encodeRow (widths : List Nat) (m : SymbolMap) (t a p s : List Nat) : Rec4 × SymbolMap :=
  (((xCreate widths m t).1,
    (xCreate widths (xCreate widths m t).2 a).1,
    (xCreate widths (xCreate widths (xCreate widths m t).2 a).2 p).1,
    (xCreate widths (xCreate widths (xCreate widths (xCreate widths m t).2 a).2 p).2 s).1),
   (xCreate widths (xCreate widths (xCreate widths (xCreate widths m t).2 a).2 p).2 s).2)

/-- Modelled from the spec: `xMdb_insert` — encode the four fields through
`create` and append the record to the backing store; existing records are
never rewritten or removed. -/
def xMdb_insert (widths : List Nat) (st : MdbStore) (m : SymbolMap)
    (t a p s : List Nat) : MdbStore × SymbolMap :=
  (st ++ [(encodeRow widths m t a p s).1], (encodeRow widths m t a p s).2)

/-- Decode one stored record by applying `light_output` to each field. -/
def decodeRow (m : SymbolMap) (r : Rec4) : Rec4 :=
  (xOut m r.1, xOut m r.2.1, xOut m r.2.2.1, xOut m r.2.2.2)

/-- Modelled from the spec: `xMdb_read` — decode the records in insertion
order, applying `light_output` to recover symbol-mapped content. -/
def xMdb_read (st : MdbStore) (m : SymbolMap) : List Rec4 :=
  st.map (decodeRow m)

/-! ### UI layer (src/ui.js): send handler embedding -/

/-- Maximal run of decimal digits at the head of the character list, and
the remainder (the scanner step of the regex `\d+(\.\d+)?`). -/
def digitsSplit (cs : List Char) : List Char × List Char :=
  (cs.takeWhile Char.isDigit, cs.dropWhile Char.isDigit)

/-- One pass of `applySymbolicFloat` from src/ui.js:
`text.replace(/\d+(\.\d+)?/g, (m) => "xAt(" + m + ")")`, scanning left to
right, greedily matching a maximal digit run with an optional decimal
fraction and never rescanning replacement text.  Fuel-indexed structural
recursion; each step consumes at least one character, so fuel equal to the
input length is sufficient. -/
def asfGo : Nat → List Char → List Char
  | 0, rest => rest
  | _ + 1, [] => []
  | fuel + 1, c :: cs =>
    if c.isDigit then
      let d1 := (digitsSplit (c :: cs)).1
      match (digitsSplit (c :: cs)).2 with
      | '.' :: r2 =>
        if (digitsSplit r2).1 = [] then
          "xAt(".data ++ d1 ++ ")".data ++ asfGo fuel ('.' :: r2)
        else
          "xAt(".data ++ d1 ++ '.' :: (digitsSplit r2).1 ++ ")".data ++
            asfGo fuel (digitsSplit r2).2
      | r1 => "xAt(".data ++ d1 ++ ")".data ++ asfGo fuel r1
    else c :: asfGo fuel cs

/-- Embedding of `applySymbolicFloat` from src/ui.js. -/
def applySymbolicFloat (s : String) : String :=
  String.mk (asfGo s.data.length s.data)

/-- The character class `[@#\$%\^&\*]` of `applyCharacterMapping`. -/
def specialChars : List Char := ['@', '#', '$', '%', '^', '&', '*']

/-- Per-character step of `applyCharacterMapping` from src/ui.js:
`text.replace(/[@#\$%\^&\*]/g, (m) => "xCh(" + m.charCodeAt(0) + ")")`. -/
def acmChar (c : Char) : List Char :=
  if c ∈ specialChars then "xCh(".data ++ (Nat.repr c.toNat).data ++ ")".data
  else [c]

/-- Embedding of `applyCharacterMapping` from src/ui.js. -/
def applyCharacterMapping (s : String) : String :=
  String.mk (s.data.flatMap acmChar)

/-- Embedding of JavaScript `String.prototype.trim`: strip leading and
trailing whitespace. -/
def jsTrim (s : String) : String :=
  String.mk (((s.data.dropWhile Char.isWhitespace).reverse.dropWhile
    Char.isWhitespace).reverse)

/-- The body posted to `/capsule` by the send handler:
`{ text: msgMapped, timestamp: Date.now(), source: "text" }`. -/
structure PostBody where
  text : String
  timestamp : Nat
  source : String
  deriving DecidableEq

/-- What kind of value an outbound call carries: a JSON text body (what
`fetch` with `JSON.stringify` sends) or a raw byte sequence (what the
engine boundary of the spec accepts). -/
inductive Payload where
  | jsonText (body : PostBody)
  | rawBytes (bs : List Nat)
  deriving DecidableEq

/-- Observable result of one run of the send handler: messages appended to
the chat area (text, author tag), the payload posted to `/capsule` if any,
and whether the input box was cleared. -/
structure SendResult where
  appended : List (String × String)
  posted : Option Payload
  inputCleared : Bool
  deriving DecidableEq

/-- Embedding of `sendBtn.onclick` from src/ui.js: trim the input; return
silently when empty; when `humaneName` is "Guest", append only the sign-in
prompt and return; otherwise transform the message with
`applySymbolicFloat` then `applyCharacterMapping`, append the untransformed
(trimmed) original, clear the input box, and post the transformed text with
a timestamp and source "text". -/
def sendHandler (inputValue humaneName : String) (now : Nat) : SendResult :=
  if jsTrim inputValue = "" then ⟨[], none, false⟩
  else if humaneName = "Guest" then
    ⟨[("Please sign in to start your reflection.", "bapx")], none, false⟩
  else
    ⟨[(jsTrim inputValue, "you")],
     some (.jsonText ⟨applyCharacterMapping (applySymbolicFloat (jsTrim inputValue)), now, "text"⟩),
     true⟩

/-- Discriminator: does an outbound payload carry raw bytes? -/
def isRawBytesPayload : Option Payload → Bool
  | some (.rawBytes _) => true
  | _ => false

/-- Discriminator: is an outbound payload absent or a JSON text body? -/
def isTextOrNone : Option Payload → Bool
  | none => true
  | some (.jsonText _) => true
  | some (.rawBytes _) => false

/-- The encoded row produced from four empty fields (used in concrete
instantiations). -/
def emptyRec : Rec4 := ([], [], [], [])

/-! ## Helper lemmas -/

theorem lookupCode_append_of_some {m : SymbolMap} {s : List Nat} {c : Nat}
    (h : lookupCode m s = some c) (l : List (List Nat)) :
    lookupCode (m ++ l) s = some c := by
  induction m generalizing c with
  | nil => simp [lookupCode] at h
  | cons k rest ih =>
    simp only [lookupCode, List.cons_append] at h ⊢
    by_cases hk : k = s
    · simpa [hk] using h
    · simp only [hk, if_false, Option.map_eq_some'] at h ⊢
      obtain ⟨c0, hc0, rfl⟩ := h
      exact ⟨c0, ih hc0, rfl⟩

theorem lookupCode_append_self {m : SymbolMap} {s : List Nat}
    (h : lookupCode m s = none) :
    lookupCode (m ++ [s]) s = some m.length := by
  induction m with
  | nil => simp [lookupCode]
  | cons k rest ih =>
    simp only [lookupCode] at h
    by_cases hk : k = s
    · simp [hk] at h
    · simp only [hk, if_false, Option.map_eq_none'] at h
      simp [lookupCode, hk, ih h]

theorem lor_fst_of_found {m : SymbolMap} {s : List Nat} {c : Nat}
    (h : lookupCode m s = some c) : (lookup_or_register m s).1 = c := by
  simp [lookup_or_register, h]

theorem lor_snd_of_found {m : SymbolMap} {s : List Nat} {c : Nat}
    (h : lookupCode m s = some c) : (lookup_or_register m s).2 = m := by
  simp [lookup_or_register, h]

theorem lor_registers (m : SymbolMap) (s : List Nat) :
    lookupCode (lookup_or_register m s).2 s = some (lookup_or_register m s).1 := by
  unfold lookup_or_register
  cases h : lookupCode m s with
  | some c => simp [h]
  | none => simpa [h] using lookupCode_append_self h

theorem lor_preserves {m : SymbolMap} {s : List Nat} {c : Nat}
    (h : lookupCode m s = some c) (t : List Nat) :
    lookupCode (lookup_or_register m t).2 s = some c := by
  unfold lookup_or_register
  cases ht : lookupCode m t with
  | some c0 => simpa [ht]
  | none => simpa [ht] using lookupCode_append_of_some h [t]

theorem applyCalls_preserves {m : SymbolMap} {s : List Nat} {c : Nat}
    (h : lookupCode m s = some c) (ts : List (List Nat)) :
    lookupCode (applyCalls m ts) s = some c := by
  induction ts generalizing m with
  | nil => exact h
  | cons t ts ih => exact ih (lor_preserves h t)

theorem lor_extends (m : SymbolMap) (s : List Nat) :
    ∃ tail, (lookup_or_register m s).2 = m ++ tail := by
  unfold lookup_or_register
  cases h : lookupCode m s with
  | some c => exact ⟨[], by simp⟩
  | none => exact ⟨[s], rfl⟩

theorem applyCalls_extends (m : SymbolMap) (ts : List (List Nat)) :
    ∃ tail, applyCalls m ts = m ++ tail := by
  induction ts generalizing m with
  | nil => exact ⟨[], by simp [applyCalls]⟩
  | cons t ts ih =>
    obtain ⟨tl1, h1⟩ := lor_extends m t
    obtain ⟨tl2, h2⟩ := ih (lookup_or_register m t).2
    exact ⟨tl1 ++ tl2, by rw [applyCalls, h2, h1, List.append_assoc]⟩

theorem registerAll_cons (m : SymbolMap) (b : Nat) (bs : List Nat) :
    registerAll m (b :: bs) = registerAll (lookup_or_register m [b]).2 bs := rfl

theorem allRegistered_registerAll (m : SymbolMap) (bs : List Nat) :
    allRegistered (registerAll m bs) bs := by
  induction bs generalizing m with
  | nil => intro b hb; cases hb
  | cons b rest ih =>
    intro x hx
    rw [registerAll_cons]
    rcases List.mem_cons.mp hx with rfl | hx'
    · have h0 := lor_registers m [x]
      have h1 : lookupCode (registerAll (lookup_or_register m [x]).2 rest) [x] =
          some (lookup_or_register m [x]).1 := applyCalls_preserves h0 _
      simp [h1]
    · exact ih (lookup_or_register m [b]).2 x hx'

theorem registerAll_of_all {m : SymbolMap} {bs : List Nat}
    (h : allRegistered m bs) : registerAll m bs = m := by
  induction bs with
  | nil => rfl
  | cons b rest ih =>
    have hb := h b (List.mem_cons_self b rest)
    obtain ⟨c, hc⟩ := Option.isSome_iff_exists.mp hb
    rw [registerAll_cons, lor_snd_of_found hc]
    exact ih (fun x hx => h x (List.mem_cons_of_mem b hx))

theorem foldBytes_of_all {m : SymbolMap} {bs : List Nat} (widths : List Nat)
    (h : allRegistered m bs) :
    foldBytes widths m bs = (bs.map (outByte widths m), m) := by
  induction bs with
  | nil => rfl
  | cons b rest ih =>
    have hb := h b (List.mem_cons_self b rest)
    obtain ⟨c, hc⟩ := Option.isSome_iff_exists.mp hb
    have h1 : foldByte widths m b = (outByte widths m b, m) := by
      simp [foldByte, outByte, lor_fst_of_found hc, lor_snd_of_found hc, hc]
    have h2 := ih (fun x hx => h x (List.mem_cons_of_mem b hx))
    simp [foldBytes, h1, h2]

theorem settingsKeys_update (st : SettingsStore) (k : List Nat) (v : List (List Nat)) :
    settingsKeys (xSdb_update st k v) =
      if k ∈ settingsKeys st then settingsKeys st else settingsKeys st ++ [k] := by
  induction st with
  | nil => simp [xSdb_update, settingsKeys]
  | cons r rest ih =>
    simp only [settingsKeys, List.map_cons] at ih ⊢
    by_cases hr : r.1 = k
    · simp [xSdb_update, hr]
    · have hne : ¬ k = r.1 := fun hk => hr hk.symm
      simp only [xSdb_update, hr, if_false, List.map_cons]
      rw [ih]
      by_cases hm : k ∈ List.map Prod.fst rest
      · simp [List.mem_cons, hne, hm]
      · simp [List.mem_cons, hne, hm]

theorem settingsKeys_update_nodup {st : SettingsStore} {k : List Nat}
    {v : List (List Nat)} (h : (settingsKeys st).Nodup) :
    (settingsKeys (xSdb_update st k v)).Nodup := by
  rw [settingsKeys_update]
  by_cases hm : k ∈ settingsKeys st
  · simpa [hm]
  · simp [hm, List.nodup_append, h]

theorem buildSettings_aux_nodup (ops : List (List Nat × List (List Nat))) :
    ∀ st : SettingsStore, (settingsKeys st).Nodup →
      (settingsKeys (ops.foldl (fun st op => xSdb_update st op.1 op.2) st)).Nodup := by
  induction ops with
  | nil => exact fun st h => h
  | cons op ops ih =>
    intro st h
    exact ih _ (settingsKeys_update_nodup h)

theorem buildSettings_nodup (ops : List (List Nat × List (List Nat))) :
    (settingsKeys (buildSettings ops)).Nodup :=
  buildSettings_aux_nodup ops [] (by simp [settingsKeys])

theorem filter_of_key_absent {st : SettingsStore} {k : List Nat}
    (h : k ∉ settingsKeys st) :
    st.filter (fun r => decide (r.1 = k)) = [] := by
  induction st with
  | nil => rfl
  | cons r rest ih =>
    have h1 : r.1 ≠ k := by
      intro hk
      apply h
      simp only [settingsKeys, List.map_cons]
      rw [hk]
      exact List.mem_cons_self _ _
    have h2 : k ∉ settingsKeys rest := by
      intro hk
      apply h
      simp only [settingsKeys, List.map_cons]
      exact List.mem_cons_of_mem _ hk
    simp [List.filter, h1, ih h2]

theorem update_filter {st : SettingsStore} (k : List Nat) (v : List (List Nat))
    (h : (settingsKeys st).Nodup) :
    (xSdb_update st k v).filter (fun r => decide (r.1 = k)) = [(k, v)] := by
  induction st with
  | nil => simp [xSdb_update, List.filter]
  | cons r rest ih =>
    simp only [settingsKeys, List.map_cons, List.nodup_cons] at h
    by_cases hr : r.1 = k
    · have habs : k ∉ settingsKeys rest := by
        rw [← hr]; exact fun hk => h.1 (by simpa [settingsKeys] using hk)
      simp [xSdb_update, hr, List.filter, filter_of_key_absent habs]
    · simp [xSdb_update, hr, List.filter, ih h.2]

/-! ## Claim theorems -/

/-- C1: for every byte value `b`, the folding multiplier equals
`(b * w1 * w2 * w3 * K) / w4` with `w1..w3` the descriptor's first three
widths (default 8, 8, 8), `K = 0.00000001` and `w4 = 64`; with the default
descriptor, `multiplier(b) = (b * 8 * 8 * 8 * 0.00000001) / 64`, and the
same byte with the same descriptor state yields the same multiplier on
every call. -/
theorem C1_multiplier_formula : ∀ b : Nat,
    multiplier xAt b = ((b : ℚ) * 8 * 8 * 8 * 0.00000001) / 64
    ∧ ∀ (widths : List Nat) (b1 b2 : Nat), b1 = b2 →
        multiplier widths b1 = multiplier widths b2 := by
  intro b
  constructor
  · show ((b : ℚ) * (xAt.getD 0 8 : Nat) * (xAt.getD 1 8 : Nat) *
      (xAt.getD 2 8 : Nat) * Kconst) / 64 = _
    norm_num [xAt, Kconst]
  · intro widths b1 b2 h
    rw [h]

/-- C2: once `lookup_or_register(s)` has returned code `c`, every
subsequent call with the same `s` on the same map returns exactly `c`,
regardless of intervening calls with other symbols; no code is ever
reassigned or removed, and the map only grows, never shrinks. -/
theorem C2_codes_stable (m : SymbolMap) (s : List Nat) (ts : List (List Nat)) :
    (lookup_or_register (applyCalls (lookup_or_register m s).2 ts) s).1 =
      (lookup_or_register m s).1
    ∧ (∃ tail, applyCalls (lookup_or_register m s).2 ts = m ++ tail)
    ∧ ∀ x c, lookupCode (lookup_or_register m s).2 x = some c →
        lookupCode (applyCalls (lookup_or_register m s).2 ts) x = some c := by
  refine ⟨lor_fst_of_found (applyCalls_preserves (lor_registers m s) ts), ?_,
    fun x c h => applyCalls_preserves h ts⟩
  obtain ⟨t1, h1⟩ := lor_extends m s
  obtain ⟨t2, h2⟩ := applyCalls_extends (lookup_or_register m s).2 ts
  exact ⟨t1 ++ t2, by rw [h2, h1, List.append_assoc]⟩

/-- C3: starting from a fresh Symbol Map, calling `create(x)` (xCreate)
twice in succession with the same `x` produces byte-identical output both
times, even though the second call sees the map state mutated by the
first. -/
theorem C3_create_identity (x : List Nat) :
    (xCreate xAt (xCreate xAt [] x).2 x).1 = (xCreate xAt [] x).1 := by
  have hA : allRegistered (registerAll [] (pad xAt x)) (pad xAt x) :=
    allRegistered_registerAll [] (pad xAt x)
  have h1 : xCreate xAt [] x =
      ((pad xAt x).map (outByte xAt (registerAll [] (pad xAt x))),
        registerAll [] (pad xAt x)) := by
    simp only [xCreate, xIn]
    exact foldBytes_of_all xAt hA
  have h2 : xCreate xAt (registerAll [] (pad xAt x)) x =
      ((pad xAt x).map (outByte xAt (registerAll [] (pad xAt x))),
        registerAll [] (pad xAt x)) := by
    simp only [xCreate, xIn]
    rw [registerAll_of_all hA]
    exact foldBytes_of_all xAt hA
  rw [h1, h2]

/-- C4: `pad(bytes)` right-pads the input with zero bytes up to the next
multiple of `block_size_bits()/8` bytes; the output always has the input as
a prefix and length at least the input's length — padding never truncates
(with the default descriptor, `block_size_bits()/8 = 6`). -/
theorem C4_pad_spec (widths : List Nat) (bs : List Nat) (h : 0 < blockBytes widths) :
    (∃ padding, pad widths bs = bs ++ padding ∧ ∀ b ∈ padding, b = 0)
    ∧ bs.length ≤ (pad widths bs).length
    ∧ (pad widths bs).length % blockBytes widths = 0
    ∧ (pad widths bs).length < bs.length + blockBytes widths
    ∧ blockBytes xAt = 6 := by
  set bb := blockBytes widths with hbb
  have hlen : (pad widths bs).length = bs.length + (bb - bs.length % bb) % bb := by
    simp [pad, hbb]
  refine ⟨⟨List.replicate ((bb - bs.length % bb) % bb) 0, rfl,
    fun b hb => List.eq_of_mem_replicate hb⟩, ?_, ?_, ?_, by decide⟩
  · rw [hlen]; omega
  · rw [hlen]
    have hr : bs.length % bb < bb := Nat.mod_lt _ h
    rcases Nat.eq_zero_or_pos (bs.length % bb) with h0 | hpos
    · rw [h0]
      simp [Nat.mod_self, h0]
    · have h1 : (bb - bs.length % bb) % bb = bb - bs.length % bb :=
        Nat.mod_eq_of_lt (by omega)
      rw [h1, Nat.add_mod, h1]
      have h3 : bs.length % bb + (bb - bs.length % bb) = bb := by omega
      rw [h3, Nat.mod_self]
  · rw [hlen]
    have h4 : (bb - bs.length % bb) % bb < bb := Nat.mod_lt _ h
    omega

/-- C4 witness: the padding properties at the default descriptor and the
concrete input `[1, 2, 3]`. -/
theorem C4_pad_spec_witness :
    0 < blockBytes xAt
    ∧ ((∃ padding, pad xAt [1, 2, 3] = [1, 2, 3] ++ padding ∧ ∀ b ∈ padding, b = 0)
      ∧ [1, 2, 3].length ≤ (pad xAt [1, 2, 3]).length
      ∧ (pad xAt [1, 2, 3]).length % blockBytes xAt = 0
      ∧ (pad xAt [1, 2, 3]).length < [1, 2, 3].length + blockBytes xAt
      ∧ blockBytes xAt = 6) :=
  ⟨by decide, C4_pad_spec xAt [1, 2, 3] (by decide)⟩

/-- C5: calling any pipeline entry point (`xIn`, `xOut`, `xCreate`) with a
non-byte argument fails with `InputKind`, and the shared Symbol Map is
exactly the same after the failed call as before it. -/
theorem C5_inputkind_atomic (widths : List Nat) (m : SymbolMap) (d : String) :
    xInE widths m (XInput.nonbyte d) = (Except.error XError.InputKind, m)
    ∧ xOutE m (XInput.nonbyte d) = (Except.error XError.InputKind, m)
    ∧ xCreateE widths m (XInput.nonbyte d) = (Except.error XError.InputKind, m) :=
  ⟨rfl, rfl, rfl⟩

/-- C6: after `update(store, k, v1)` followed by `update(store, k, v2)` on
a reachable store, `read` contains exactly one row for `k` and its value is
`v2`; in every reachable store state, `read` never reports two rows with
the same key. -/
theorem C6_settings_upsert (ops : List (List Nat × List (List Nat))) (k : List Nat)
    (v1 v2 : List (List Nat)) :
    (xSdb_read (xSdb_update (xSdb_update (buildSettings ops) k v1) k v2)).filter
        (fun r => decide (r.1 = k)) = [(k, v2)]
    ∧ (settingsKeys (xSdb_read (xSdb_update (xSdb_update (buildSettings ops) k v1) k v2))).Nodup
    ∧ ∀ ops2, (settingsKeys (buildSettings ops2)).Nodup := by
  have h0 := buildSettings_nodup ops
  have h1 := @settingsKeys_update_nodup (buildSettings ops) k v1 h0
  simp only [xSdb_read]
  exact ⟨update_filter k v2 h1, @settingsKeys_update_nodup _ k v2 h1,
    buildSettings_nodup⟩

/-- C7: after two inserts on an initially empty conversation store, `read`
returns exactly two rows, in insertion order; the first row is unaffected
by the second insert, and inserts never rewrite or remove existing
records. -/
theorem C7_conversation_append_only (widths : List Nat) (m0 : SymbolMap)
    (t1 a1 p1 s1 t2 a2 p2 s2 : List Nat) (st1 st2 : MdbStore) (m1 m2 : SymbolMap)
    (h1 : xMdb_insert widths [] m0 t1 a1 p1 s1 = (st1, m1))
    (h2 : xMdb_insert widths st1 m1 t2 a2 p2 s2 = (st2, m2)) :
    st2 = st1 ++ [(encodeRow widths m1 t2 a2 p2 s2).1]
    ∧ st1 = [(encodeRow widths m0 t1 a1 p1 s1).1]
    ∧ st2.head? = st1.head?
    ∧ st2.length = 2
    ∧ xMdb_read st2 m2 =
        [decodeRow m2 (encodeRow widths m0 t1 a1 p1 s1).1,
         decodeRow m2 (encodeRow widths m1 t2 a2 p2 s2).1]
    ∧ (xMdb_read st2 m2).length = 2 := by
  have e1 := congrArg Prod.fst h1
  have e3 := congrArg Prod.fst h2
  simp only [xMdb_insert, List.nil_append] at e1 e3
  subst e1
  subst e3
  exact ⟨rfl, rfl, rfl, rfl, rfl, rfl⟩

/-- C7 witness: the two-insert scenario at the default descriptor, a fresh
map and four empty fields per row. -/
theorem C7_conversation_append_only_witness :
    (xMdb_insert xAt [] [] [] [] [] [] = ([emptyRec], ([] : SymbolMap))
      ∧ xMdb_insert xAt [emptyRec] [] [] [] [] [] =
          ([emptyRec, emptyRec], ([] : SymbolMap)))
    ∧ ([emptyRec, emptyRec] = [emptyRec] ++ [(encodeRow xAt [] [] [] [] []).1]
      ∧ [emptyRec] = [(encodeRow xAt [] [] [] [] []).1]
      ∧ [emptyRec, emptyRec].head? = [emptyRec].head?
      ∧ [emptyRec, emptyRec].length = 2
      ∧ xMdb_read [emptyRec, emptyRec] [] =
          [decodeRow [] (encodeRow xAt [] [] [] [] []).1,
           decodeRow [] (encodeRow xAt [] [] [] [] []).1]
      ∧ (xMdb_read [emptyRec, emptyRec] []).length = 2) :=
  ⟨⟨rfl, rfl⟩,
   C7_conversation_append_only xAt [] [] [] [] [] [] [] [] []
     [emptyRec] [emptyRec, emptyRec] [] [] rfl rfl⟩

/-- C8 counterexample: at the concrete input "hello" from signed-in user
"Alice", the UI send handler posts a JSON text payload to /capsule, not a
raw byte sequence: the UI performs no text-to-bytes conversion before
calling in. -/
theorem C8_counterexample :
    (sendHandler "hello" "Alice" 0).posted =
      some (Payload.jsonText ⟨"hello", 0, "text"⟩)
    ∧ isRawBytesPayload (sendHandler "hello" "Alice" 0).posted = false := by
  exact ⟨by decide, by decide⟩

/-- C8 (amended): the UI front end never passes a raw byte sequence to the
engine; its only outbound call posts a JSON text body (the transformed
message string with a timestamp and source "text") to /capsule, leaving
any text-to-bytes conversion to the receiving side. -/
theorem C8_amended_text_only (input name : String) (now : Nat) :
    isTextOrNone (sendHandler input name now).posted = true := by
  unfold sendHandler
  by_cases h1 : jsTrim input = ""
  · simp [h1, isTextOrNone]
  · by_cases h2 : name = "Guest"
    · simp [h1, h2, isTextOrNone]
    · simp [h1, h2, isTextOrNone]

/-- C9: for every trimmed non-empty message from a signed-in user, the text
posted to /capsule is obtained by applying `applySymbolicFloat` (digit runs
with optional decimal fraction to `xAt(<match>)`) and then
`applyCharacterMapping` (each of `@ # $ % ^ & *` to `xCh(<charCode>)`); the
untransformed original is what is appended to the chat, and the POST body
carries the transformed text with a timestamp and source "text". -/
theorem C9_transform_pipeline (input name : String) (now : Nat)
    (h1 : jsTrim input ≠ "") (h2 : name ≠ "Guest") :
    (sendHandler input name now).posted =
      some (Payload.jsonText
        ⟨applyCharacterMapping (applySymbolicFloat (jsTrim input)), now, "text"⟩)
    ∧ (sendHandler input name now).appended = [(jsTrim input, "you")]
    ∧ (sendHandler input name now).inputCleared = true := by
  simp [sendHandler, h1, h2]

/-- C9 witness: the transformation pipeline at the concrete message
"hi 5" from signed-in user "Alice". -/
theorem C9_transform_pipeline_witness :
    (jsTrim "hi 5" ≠ "" ∧ "Alice" ≠ "Guest")
    ∧ ((sendHandler "hi 5" "Alice" 7).posted =
        some (Payload.jsonText
          ⟨applyCharacterMapping (applySymbolicFloat (jsTrim "hi 5")), 7, "text"⟩)
      ∧ (sendHandler "hi 5" "Alice" 7).appended = [(jsTrim "hi 5", "you")]
      ∧ (sendHandler "hi 5" "Alice" 7).inputCleared = true) :=
  ⟨⟨by decide, by decide⟩,
   C9_transform_pipeline "hi 5" "Alice" 7 (by decide) (by decide)⟩

/-- C10: the send handler performs no POST and appends nothing when the
input trims to the empty string; when `humaneName` is "Guest" it appends
only the sign-in prompt and returns without posting and without clearing
the input box; a POST occurs exactly when the trimmed message is non-empty
and the user is not "Guest". -/
theorem C10_send_guards (input name : String) (now : Nat) :
    (jsTrim input = "" → sendHandler input name now = ⟨[], none, false⟩)
    ∧ (jsTrim input ≠ "" → name = "Guest" →
        sendHandler input name now =
          ⟨[("Please sign in to start your reflection.", "bapx")], none, false⟩)
    ∧ ((sendHandler input name now).posted.isSome ↔
        jsTrim input ≠ "" ∧ name ≠ "Guest") := by
  refine ⟨fun h1 => by simp [sendHandler, h1],
    fun h1 h2 => by simp [sendHandler, h1, h2], ?_⟩
  by_cases h1 : jsTrim input = ""
  · simp [sendHandler, h1]
  · by_cases h2 : name = "Guest"
    · simp [sendHandler, h1, h2]
    · simp [sendHandler, h1, h2]

/-- C10 witness: the guard behaviour at a whitespace-only input and at a
Guest user. -/
theorem C10_send_guards_witness :
    sendHandler " " "Alice" 0 = ⟨[], none, false⟩
    ∧ sendHandler "hi" "Guest" 0 =
        ⟨[("Please sign in to start your reflection.", "bapx")], none, false⟩ :=
  ⟨(C10_send_guards " " "Alice" 0).1 (by decide),
   (C10_send_guards "hi" "Guest" 0).2.1 (by decide) (by decide)⟩

/-- C1 witness: the multiplier formula evaluated at the concrete byte 255,
and determinism at byte 7. -/
theorem C1_multiplier_formula_witness :
    multiplier xAt 255 = ((255 : ℚ) * 8 * 8 * 8 * 0.00000001) / 64
    ∧ multiplier xAt 7 = multiplier xAt 7 :=
  ⟨(C1_multiplier_formula 255).1, (C1_multiplier_formula 255).2 xAt 7 7 rfl⟩

/-- C2 witness: code stability on a fresh map for the symbol `[0]` across
the intervening calls `[1]` and `[0]`. -/
theorem C2_codes_stable_witness :
    (lookup_or_register (applyCalls (lookup_or_register [] [0]).2 [[1], [0]]) [0]).1 =
      (lookup_or_register ([] : SymbolMap) [0]).1
    ∧ (∃ tail, applyCalls (lookup_or_register [] [0]).2 [[1], [0]] = [] ++ tail)
    ∧ ∀ x c, lookupCode (lookup_or_register ([] : SymbolMap) [0]).2 x = some c →
        lookupCode (applyCalls (lookup_or_register [] [0]).2 [[1], [0]]) x = some c :=
  C2_codes_stable [] [0] [[1], [0]]
